import Mathlib

/-!
Verification of the BIP340 key-pair library (secp256k1 key material,
multikey codec, lift-x point recovery).

The development shallowly embeds the TypeScript sources:
* `src/src/public-key.ts` — `PublicKey` (constructor, accessors, multikey
  `encode`/`decode`) and `PublicKeyUtils` (`modPow`, `sqrtMod`, `liftX`);
* `src/src/private-key.ts` — `PrivateKey` (constructor, `bytes`, `secret`).

JavaScript `Uint8Array` values are embedded as `List Nat` (each entry a
byte, i.e. `< 256`); JavaScript `bigint` is embedded as `Int`, with the
JavaScript remainder operator `%` (truncated division, sign of the
dividend) embedded as `Int.tmod`.  While-loops are embedded as
fuel-indexed structural recursions together with lemmas showing the
result is independent of the fuel once the fuel dominates the iteration
count, so that every definition evaluates by kernel reduction.
-/

/-- Error conditions surfaced by the library.  Modelled from the spec:
`error.ts` is not under `src/`; the spec (§7) describes an error taxonomy of
typed/labelled errors.  Constructors carry the error code strings used at
the throw sites in `src/src/public-key.ts` and `src/src/private-key.ts`;
`jsTypeError` and `jsSyntaxError` stand for untyped JavaScript runtime
exceptions (not library errors). -/
inductive Err where
  /-- Code `PUBLIC_KEY_CONSTRUCTOR_ERROR` -/
  | publicKeyConstructorError
  /-- Code `LIFT_X_ERROR` -/
  | liftXError
  /-- Code `DECODE_PUBLIC_KEY_ERROR`, raised by the 34-byte length check -/
  | decodeLengthError
  /-- Code `DECODE_PUBLIC_KEY_ERROR`, raised by the malformed-multibase-tag check -/
  | decodeTagError
  /-- Code `ENCODE_PUBLIC_KEY_ERROR` -/
  | encodePublicKeyError
  /-- Code `PRIVATE_KEY_CONSTRUCTOR_ERROR` -/
  | privateKeyConstructorError
  /-- Code `GET_RAW_PRIVATE_KEY_ERROR` -/
  | getRawPrivateKeyError
  /-- a JavaScript `TypeError` escaping the library -/
  | jsTypeError
  /-- a JavaScript `SyntaxError` escaping the library -/
  | jsSyntaxError
  /-- an error thrown inside the external multibase collaborator -/
  | multibaseError
deriving DecidableEq

/-- Modelled from the spec: `constants.ts` is not under `src/`.  The spec
(§2, Glossary) fixes the curve as secp256k1, whose field prime is the
standard value `2^256 - 2^32 - 977`. -/
def CURVE_p : Nat :=
  0xFFFFFFFFFFFFFFFFFFFFFFFFFFFFFFFFFFFFFFFFFFFFFFFFFFFFFFFEFFFFFC2F

/-- Modelled from the spec: `constants.ts` is not under `src/`.  The spec
(§3, Glossary) fixes the group order `n` of secp256k1, the standard value
below. -/
def CURVE_n : Nat :=
  0xFFFFFFFFFFFFFFFFFFFFFFFFFFFFFFFEBAAEDCE6AF48A03BBFD25E8CD0364141

/-- Modelled from the spec: `constants.ts` is not under `src/`.  The spec
(§4.2) fixes the curve constant `b = 7` of `y² = x³ + 7`. -/
def CURVE_b : Nat := 7

/-- A list is a byte list when every entry is below 256 (the values a
JavaScript `Uint8Array` can hold). -/
def IsBytes (bs : List Nat) : Prop := ∀ b ∈ bs, b < 256

instance (bs : List Nat) : Decidable (IsBytes bs) := by
  unfold IsBytes; infer_instance

/-- Big-endian value of a byte list; embeds the conversion
`BigInt('0x' + Buffer.from(xBytes).toString('hex'))` performed at
`src/src/public-key.ts:247`. -/
def bytesToNatBE (bs : List Nat) : Nat :=
  bs.foldl (fun acc b => acc * 256 + b) 0

/-- The 32-byte big-endian encoding of `y < 2^256`; embeds
`Buffer.from(y.toString(16).padStart(64, '0'), 'hex')` at
`src/src/public-key.ts:259` (64 hex digits, two per byte, most
significant first). -/
def natToBytes32BE (y : Nat) : List Nat :=
  (List.range 32).map fun i => y / 256 ^ (31 - i) % 256

/-! ## `PublicKeyUtils.modPow` (src/src/public-key.ts:213-221)

```ts
public modPow(base: bigint, exp: bigint, mod: bigint): bigint {
  let result = 1n;
  while (exp > 0n) {
    if (exp & 1n) result = (result * base) % mod;
    base = (base * base) % mod;
    exp >>= 1n;
  }
  return result;
}
```

For `exp > 0n`, the test `exp & 1n` is `exp.tmod 2 = 1` and `exp >>= 1n`
is division by two.  The loop is embedded with explicit fuel; since `exp`
at least halves each iteration, any fuel above `exp.toNat` reaches the
exit condition. -/

/-- One fuel-indexed unfolding of the `modPow` while-loop.  State:
`result`, `base`, `exp` as in the source. -/
def modPowGo (m : Int) : Nat → Int → Int → Int → Int
  | 0, result, _, _ => result
  | fuel + 1, result, base, exp =>
      if 0 < exp then
        modPowGo m fuel
          (if exp.tmod 2 = 1 then (result * base).tmod m else result)
          ((base * base).tmod m)
          (exp / 2)
      else result

/-- Embeds `PublicKeyUtils.modPow` (src/src/public-key.ts:213-221). -/
def modPow (base exp m : Int) : Int :=
  modPowGo m (exp.toNat + 1) 1 base exp

/-- Embeds `PublicKeyUtils.sqrtMod` (src/src/public-key.ts:231-233):
`modPow(a, (p + 1n) >> 2n, p)`; for the nonnegative `p` in use,
`(p + 1n) >> 2n` is division by 4. -/
def sqrtMod (a p : Int) : Int :=
  modPow a ((p + 1) / 4) p

/-- Embeds `PublicKeyUtils.liftX` (src/src/public-key.ts:240-263); the local
bindings `x`, `ySquared`, `y` of the source are written inline. -/
def liftX (xBytes : List Nat) : Except Err (List Nat) :=
  if xBytes.length ≠ 32 then
    .error .liftXError
  else if (bytesToNatBE xBytes : Int) ≤ 0 ∨
      (bytesToNatBE xBytes : Int) ≥ (CURVE_p : Int) then
    .error .liftXError
  else
    .ok (4 :: xBytes ++ natToBytes32BE
      ((sqrtMod (((bytesToNatBE xBytes : Int) ^ 3 +
          (CURVE_b : Int)).tmod (CURVE_p : Int)) (CURVE_p : Int)).toNat))

/-! ## Arithmetic facts about `Int.tmod` (the JavaScript `%`) -/

/-- Negating the dividend negates the truncating remainder. -/
theorem neg_tmod_eq (a b : Int) : (-a).tmod b = -(a.tmod b) := by
  rw [Int.tmod_def, Int.tmod_def, Int.neg_tdiv]; ring

/-- Computes `Int.tmod` on nonnegative arguments via `Nat.mod`. -/
theorem tmod_of_nonneg (a b : Int) (ha : 0 ≤ a) (hb : 0 ≤ b) :
    a.tmod b = ((a.natAbs % b.natAbs : Nat) : Int) := by
  rw [Int.tmod_eq_emod ha hb]
  conv_lhs => rw [← Int.natAbs_of_nonneg ha, ← Int.natAbs_of_nonneg hb]
  exact (Int.ofNat_emod _ _).symm

/-- Characterization: `Int.tmod` is the truncating remainder: sign of the dividend,
magnitude `natAbs a % natAbs b`. -/
theorem tmod_char (a b : Int) :
    a.tmod b = a.sign * ((a.natAbs % b.natAbs : Nat) : Int) := by
  have hb : a.tmod b = a.tmod (b.natAbs : Int) := by
    rcases le_or_lt 0 b with h | h
    · rw [Int.natAbs_of_nonneg h]
    · rw [← Int.tmod_neg]
      congr 1
      rw [Int.ofNat_natAbs_of_nonpos (le_of_lt h)]
  rcases lt_trichotomy a 0 with ha | ha | ha
  · have h1 : a = -((a.natAbs : Nat) : Int) := by omega
    rw [hb]
    calc a.tmod (b.natAbs : Int)
        = (-((a.natAbs : Nat) : Int)).tmod ((b.natAbs : Nat) : Int) := by
          rw [← h1]
      _ = -(((a.natAbs : Nat) : Int).tmod ((b.natAbs : Nat) : Int)) :=
          neg_tmod_eq _ _
      _ = -((a.natAbs % b.natAbs : Nat) : Int) := by
          rw [tmod_of_nonneg _ _ (Int.natCast_nonneg _)
            (Int.natCast_nonneg _), Int.natAbs_ofNat, Int.natAbs_ofNat]
      _ = a.sign * ((a.natAbs % b.natAbs : Nat) : Int) := by
          rw [Int.sign_eq_neg_one_of_neg ha]; ring
  · subst ha; simp [Int.zero_tmod]
  · rw [hb, tmod_of_nonneg _ _ (le_of_lt ha) (Int.natCast_nonneg _),
      Int.natAbs_ofNat, Int.sign_eq_one_of_pos ha, one_mul]

/-- The magnitude of the truncating remainder. -/
theorem natAbs_tmod_eq (a b : Int) :
    (a.tmod b).natAbs = a.natAbs % b.natAbs := by
  rw [tmod_char, Int.natAbs_mul, Int.natAbs_ofNat]
  rcases lt_trichotomy a 0 with ha | ha | ha
  · rw [Int.sign_eq_neg_one_of_neg ha]; simp
  · subst ha; simp
  · rw [Int.sign_eq_one_of_pos ha]; simp

/-- Reduction by `tmod` leaves the residue class unchanged. -/
theorem tmod_modEq (a m : Int) : a.tmod m ≡ a [ZMOD m] := by
  have h := Int.tmod_add_tdiv a m
  exact Int.modEq_iff_dvd.mpr ⟨a.tdiv m, by linarith⟩

/-- Pulling an inner `tmod` out of a product does not change the outer
`tmod`: the two products agree in residue class, magnitude and sign. -/
theorem mul_tmod_left_eq (x y m : Int) :
    ((x.tmod m) * y).tmod m = (x * y).tmod m := by
  rcases Nat.eq_zero_or_pos (x.natAbs % m.natAbs) with h0 | hpos
  · have hx0 : x.tmod m = 0 := by
      rw [tmod_char, h0]; simp
    rw [hx0, zero_mul, Int.zero_tmod, tmod_char (x * y) m,
      Int.natAbs_mul, Nat.mul_mod, h0, Nat.zero_mul, Nat.zero_mod]
    simp
  · have hxne : x ≠ 0 := by
      rintro rfl; simp at hpos
    have hsx : (x.tmod m).sign = x.sign := by
      rw [tmod_char, Int.sign_mul, Int.sign_natCast_of_ne_zero
        (Nat.pos_iff_ne_zero.mp hpos), mul_one, Int.sign_sign]
    rw [tmod_char (x.tmod m * y) m, tmod_char (x * y) m,
      Int.sign_mul, Int.sign_mul, hsx, Int.natAbs_mul, Int.natAbs_mul,
      natAbs_tmod_eq]
    congr 2
    rw [Nat.mul_mod, Nat.mod_mod_of_dvd _ dvd_rfl, ← Nat.mul_mod]

/-- Replacing the squared base by its remainder before the remaining
exponentiation does not change the final remainder. -/
theorem mul_pow_tmod_eq (y m : Int) (k : Nat) :
    ∀ z : Int, (z * (y.tmod m) ^ k).tmod m = (z * y ^ k).tmod m := by
  induction k with
  | zero => intro z; simp
  | succ k ih =>
      intro z
      have h1 : z * y.tmod m ^ (k + 1) = (y.tmod m) * (z * y.tmod m ^ k) := by
        ring
      rw [h1, mul_tmod_left_eq, show y * (z * y.tmod m ^ k)
        = (z * y) * y.tmod m ^ k by ring, ih (z * y),
        show z * y * y ^ k = z * y ^ (k + 1) by ring]

/-- The `modPow` loop body, run with sufficient fuel, computes the
truncating remainder of `result * base ^ exp`. -/
theorem modPowGo_eq (m : Int) :
    ∀ (fuel : Nat) (exp : Int), exp.toNat < fuel → ∀ r b : Int,
      modPowGo m fuel r b exp
        = if 0 < exp then (r * b ^ exp.toNat).tmod m else r := by
  intro fuel
  induction fuel with
  | zero => intro exp h; omega
  | succ fuel ih =>
      intro exp hfuel r b
      by_cases hpos : 0 < exp
      · have hhalf : (exp / 2).toNat < fuel := by omega
        have htm : exp.tmod 2 = exp % 2 :=
          Int.tmod_eq_emod (le_of_lt hpos) (by norm_num)
        have hstep : modPowGo m (fuel + 1) r b exp
            = modPowGo m fuel
                (if exp.tmod 2 = 1 then (r * b).tmod m else r)
                ((b * b).tmod m) (exp / 2) := by
          simp only [modPowGo, if_pos hpos]
        rw [hstep, ih (exp / 2) hhalf, if_pos hpos]
        by_cases htwo : (0 : Int) < exp / 2
        · rw [if_pos htwo]
          by_cases hodd : exp.tmod 2 = 1
          · have hexp : exp.toNat = 2 * (exp / 2).toNat + 1 := by omega
            rw [if_pos hodd, mul_tmod_left_eq,
              mul_pow_tmod_eq (b * b) m _ (r * b), hexp]
            congr 1
            ring
          · have hexp : exp.toNat = 2 * (exp / 2).toNat := by omega
            rw [if_neg hodd, mul_pow_tmod_eq (b * b) m _ r, hexp]
            congr 1
            ring
        · have hone : exp = 1 := by omega
          subst hone
          rw [if_neg htwo, if_pos (by decide : (1 : Int).tmod 2 = 1)]
          norm_num
      · have hstep : modPowGo m (fuel + 1) r b exp = r := by
          simp only [modPowGo, if_neg hpos]
        rw [hstep, if_neg hpos]

/-- Correctness: `PublicKeyUtils.modPow` computes `base ^ exp` reduced by the
JavaScript remainder (truncating, sign of the dividend). -/
theorem modPow_correct (base exp m : Int) (hexp : 0 ≤ exp) (hm : 1 < m) :
    modPow base exp m = (base ^ exp.toNat).tmod m := by
  unfold modPow
  rw [modPowGo_eq m _ _ (by omega)]
  by_cases h : 0 < exp
  · rw [if_pos h, one_mul]
  · have h0 : exp = 0 := by omega
    subst h0
    simp [Int.tmod_eq_of_lt (by norm_num) hm]

/-! ## Nat-level modular exponentiation, reusing the verified `modPow` -/

/-- Modular exponentiation on naturals, evaluated through the embedded
`modPow`; used to state and check the primality certificates below. -/
def powMod (b e m : Nat) : Nat := (modPow b e m).toNat

/-- Correctness: `powMod` computes `b ^ e % m`. -/
theorem powMod_eq (b e m : Nat) (hm : 1 < m) : powMod b e m = b ^ e % m := by
  unfold powMod
  rw [modPow_correct _ _ _ (Int.natCast_nonneg e) (by exact_mod_cast hm)]
  rw [Int.toNat_natCast, ← Nat.cast_pow,
    tmod_of_nonneg _ _ (Int.natCast_nonneg _) (Int.natCast_nonneg _),
    Int.natAbs_ofNat, Int.natAbs_ofNat, Int.toNat_natCast]

/-- Lucas primality certificate checker: `p` is prime as soon as some `a`
has full order, checked against a complete list of the prime factors of
`p - 1` (with multiplicity). -/
theorem lucasCert (p a : Nat) (qs : List Nat) (hp : 1 < p)
    (hq : ∀ q ∈ qs, Nat.Prime q)
    (hprod : qs.prod = p - 1)
    (hFermat : powMod a (p - 1) p = 1)
    (hne : ∀ q ∈ qs, powMod a ((p - 1) / q) p ≠ 1) : Nat.Prime p := by
  have h1 : (1 : Nat) % p = 1 := Nat.mod_eq_of_lt hp
  have hcast : ∀ e : Nat, ((a : ZMod p)) ^ e = 1 ↔ a ^ e % p = 1 := by
    intro e
    rw [← Nat.cast_pow]
    constructor
    · intro h
      have h2 : ((a ^ e : Nat) : ZMod p) = ((1 : Nat) : ZMod p) := by
        rw [h]; norm_num
      have := (ZMod.natCast_eq_natCast_iff _ _ _).mp h2
      unfold Nat.ModEq at this
      rw [h1] at this
      exact this
    · intro h
      have h2 : a ^ e ≡ 1 [MOD p] := by
        unfold Nat.ModEq
        rw [h1, h]
      have := (ZMod.natCast_eq_natCast_iff _ _ _).mpr h2
      rw [this]; norm_num
  refine lucas_primality p (a : ZMod p) ?_ ?_
  · rw [hcast]
    rw [powMod_eq _ _ _ hp] at hFermat
    exact hFermat
  · intro q hqp hdvd
    rw [← hprod] at hdvd
    rcases (hqp.prime.dvd_prod_iff).mp hdvd with ⟨qi, hqi, hdvdqi⟩
    have hqeq : q = qi := ((Nat.prime_dvd_prime_iff_eq hqp (hq qi hqi)).mp
      hdvdqi)
    subst hqeq
    intro hcontra
    apply hne q hqi
    rw [powMod_eq _ _ _ hp]
    exact (hcast _).mp hcontra
/-! ## Primality of the secp256k1 field prime

A Pratt/Lucas certificate chain, checked with `powMod` (kernel
evaluation). -/

set_option maxRecDepth 100000

theorem prime_2 : Nat.Prime 2 := by norm_num

theorem prime_3 : Nat.Prime 3 := by norm_num

theorem prime_5 : Nat.Prime 5 := by norm_num

theorem prime_7 : Nat.Prime 7 := by norm_num

theorem prime_11 : Nat.Prime 11 := by norm_num

theorem prime_13 : Nat.Prime 13 := by norm_num

theorem prime_29 : Nat.Prime 29 := by norm_num

theorem prime_31 : Nat.Prime 31 := by norm_num

theorem prime_53 : Nat.Prime 53 := by norm_num

theorem prime_67 : Nat.Prime 67 := by norm_num

theorem prime_83 : Nat.Prime 83 := by norm_num

theorem prime_101 : Nat.Prime 101 := by norm_num

theorem prime_103 : Nat.Prime 103 := by norm_num

theorem prime_131 : Nat.Prime 131 := by norm_num

theorem prime_239 : Nat.Prime 239 := by norm_num

theorem prime_419 : Nat.Prime 419 := by norm_num

theorem prime_443 : Nat.Prime 443 := by norm_num

theorem prime_887 : Nat.Prime 887 := by norm_num

theorem prime_971 : Nat.Prime 971 := by norm_num

theorem prime_1373 : Nat.Prime 1373 := by norm_num

theorem prime_1627 : Nat.Prime 1627 := by norm_num

theorem prime_2621 : Nat.Prime 2621 := by norm_num

theorem prime_2657 : Nat.Prime 2657 := by norm_num

theorem prime_4423 : Nat.Prime 4423 := by norm_num

theorem prime_5323 : Nat.Prime 5323 := by norm_num

theorem prime_7723 : Nat.Prime 7723 := by norm_num

theorem prime_13441 : Nat.Prime 13441 := by norm_num

theorem prime_20113 : Nat.Prime 20113 := by norm_num

theorem prime_24809 : Nat.Prime 24809 := by norm_num

theorem prime_41201 : Nat.Prime 41201 := by norm_num

theorem prime_96557 : Nat.Prime 96557 := by norm_num

theorem prime_1206781 : Nat.Prime 1206781 := by
  apply lucasCert _ 10 [2, 2, 3, 5, 20113]
  · norm_num
  · intro q hq
    simp only [List.mem_cons, List.not_mem_nil, or_false] at hq
    rcases hq with rfl | rfl | rfl | rfl | rfl
    exacts [prime_2, prime_2, prime_3, prime_5, prime_20113]
  · decide
  · decide
  · intro q hq
    simp only [List.mem_cons, List.not_mem_nil, or_false] at hq
    rcases hq with rfl | rfl | rfl | rfl | rfl
    all_goals decide

theorem prime_7240687 : Nat.Prime 7240687 := by
  apply lucasCert _ 3 [2, 3, 1206781]
  · norm_num
  · intro q hq
    simp only [List.mem_cons, List.not_mem_nil, or_false] at hq
    rcases hq with rfl | rfl | rfl
    exacts [prime_2, prime_3, prime_1206781]
  · decide
  · decide
  · intro q hq
    simp only [List.mem_cons, List.not_mem_nil, or_false] at hq
    rcases hq with rfl | rfl | rfl
    all_goals decide

theorem prime_13331831 : Nat.Prime 13331831 := by
  apply lucasCert _ 13 [2, 5, 971, 1373]
  · norm_num
  · intro q hq
    simp only [List.mem_cons, List.not_mem_nil, or_false] at hq
    rcases hq with rfl | rfl | rfl | rfl
    exacts [prime_2, prime_5, prime_971, prime_1373]
  · decide
  · decide
  · intro q hq
    simp only [List.mem_cons, List.not_mem_nil, or_false] at hq
    rcases hq with rfl | rfl | rfl | rfl
    all_goals decide

theorem prime_107590001 : Nat.Prime 107590001 := by
  apply lucasCert _ 3 [2, 2, 2, 2, 5, 5, 5, 5, 7, 29, 53]
  · norm_num
  · intro q hq
    simp only [List.mem_cons, List.not_mem_nil, or_false] at hq
    rcases hq with rfl | rfl | rfl | rfl | rfl | rfl | rfl | rfl | rfl | rfl | rfl
    exacts [prime_2, prime_2, prime_2, prime_2, prime_5, prime_5, prime_5, prime_5, prime_7, prime_29, prime_53]
  · decide
  · decide
  · intro q hq
    simp only [List.mem_cons, List.not_mem_nil, or_false] at hq
    rcases hq with rfl | rfl | rfl | rfl | rfl | rfl | rfl | rfl | rfl | rfl | rfl
    all_goals decide

theorem prime_173378833005251801 : Nat.Prime 173378833005251801 := by
  apply lucasCert _ 6 [2, 2, 2, 5, 5, 2621, 24809, 13331831]
  · norm_num
  · intro q hq
    simp only [List.mem_cons, List.not_mem_nil, or_false] at hq
    rcases hq with rfl | rfl | rfl | rfl | rfl | rfl | rfl | rfl
    exacts [prime_2, prime_2, prime_2, prime_5, prime_5, prime_2621, prime_24809, prime_13331831]
  · decide
  · decide
  · intro q hq
    simp only [List.mem_cons, List.not_mem_nil, or_false] at hq
    rcases hq with rfl | rfl | rfl | rfl | rfl | rfl | rfl | rfl
    all_goals decide

theorem prime_22149492674086928081353 : Nat.Prime 22149492674086928081353 := by
  apply lucasCert _ 5 [2, 2, 2, 3, 5323, 173378833005251801]
  · norm_num
  · intro q hq
    simp only [List.mem_cons, List.not_mem_nil, or_false] at hq
    rcases hq with rfl | rfl | rfl | rfl | rfl | rfl
    exacts [prime_2, prime_2, prime_2, prime_3, prime_5323, prime_173378833005251801]
  · decide
  · decide
  · intro q hq
    simp only [List.mem_cons, List.not_mem_nil, or_false] at hq
    rcases hq with rfl | rfl | rfl | rfl | rfl | rfl
    all_goals decide

theorem prime_132896956044521568488119 : Nat.Prime 132896956044521568488119 := by
  apply lucasCert _ 6 [2, 3, 22149492674086928081353]
  · norm_num
  · intro q hq
    simp only [List.mem_cons, List.not_mem_nil, or_false] at hq
    rcases hq with rfl | rfl | rfl
    exacts [prime_2, prime_3, prime_22149492674086928081353]
  · decide
  · decide
  · intro q hq
    simp only [List.mem_cons, List.not_mem_nil, or_false] at hq
    rcases hq with rfl | rfl | rfl
    all_goals decide

theorem prime_255515944373312847190720520512484175977 : Nat.Prime 255515944373312847190720520512484175977 := by
  apply lucasCert _ 3 [2, 2, 2, 7, 7, 11, 1627, 2657, 4423, 41201, 96557, 7240687, 107590001]
  · norm_num
  · intro q hq
    simp only [List.mem_cons, List.not_mem_nil, or_false] at hq
    rcases hq with rfl | rfl | rfl | rfl | rfl | rfl | rfl | rfl | rfl | rfl | rfl | rfl | rfl
    exacts [prime_2, prime_2, prime_2, prime_7, prime_7, prime_11, prime_1627, prime_2657, prime_4423, prime_41201, prime_96557, prime_7240687, prime_107590001]
  · decide
  · decide
  · intro q hq
    simp only [List.mem_cons, List.not_mem_nil, or_false] at hq
    rcases hq with rfl | rfl | rfl | rfl | rfl | rfl | rfl | rfl | rfl | rfl | rfl | rfl | rfl
    all_goals decide

theorem prime_205115282021455665897114700593932402728804164701536103180137503955397371 : Nat.Prime 205115282021455665897114700593932402728804164701536103180137503955397371 := by
  apply lucasCert _ 10 [2, 3, 5, 29, 29, 31, 7723, 132896956044521568488119, 255515944373312847190720520512484175977]
  · norm_num
  · intro q hq
    simp only [List.mem_cons, List.not_mem_nil, or_false] at hq
    rcases hq with rfl | rfl | rfl | rfl | rfl | rfl | rfl | rfl | rfl
    exacts [prime_2, prime_3, prime_5, prime_29, prime_29, prime_31, prime_7723, prime_132896956044521568488119, prime_255515944373312847190720520512484175977]
  · decide
  · decide
  · intro q hq
    simp only [List.mem_cons, List.not_mem_nil, or_false] at hq
    rcases hq with rfl | rfl | rfl | rfl | rfl | rfl | rfl | rfl | rfl
    all_goals decide

theorem prime_CURVE_p_val : Nat.Prime 115792089237316195423570985008687907853269984665640564039457584007908834671663 := by
  apply lucasCert _ 3 [2, 3, 7, 13441, 205115282021455665897114700593932402728804164701536103180137503955397371]
  · norm_num
  · intro q hq
    simp only [List.mem_cons, List.not_mem_nil, or_false] at hq
    rcases hq with rfl | rfl | rfl | rfl | rfl
    exacts [prime_2, prime_3, prime_7, prime_13441, prime_205115282021455665897114700593932402728804164701536103180137503955397371]
  · decide
  · decide
  · intro q hq
    simp only [List.mem_cons, List.not_mem_nil, or_false] at hq
    rcases hq with rfl | rfl | rfl | rfl | rfl
    all_goals decide

/-- The secp256k1 field prime is prime. -/
theorem CURVE_p_prime : Nat.Prime CURVE_p := prime_CURVE_p_val

/-! ## Square roots modulo the secp256k1 prime -/

/-- Evaluating `modPow` on natural-number arguments, as a natural number. -/
theorem modPow_natCast (b e m : Nat) (hm : 1 < m) :
    modPow (b : Int) (e : Int) (m : Int) = ((b ^ e % m : Nat) : Int) := by
  rw [modPow_correct _ _ _ (Int.natCast_nonneg e) (by exact_mod_cast hm),
    Int.toNat_natCast, ← Nat.cast_pow,
    tmod_of_nonneg _ _ (Int.natCast_nonneg _) (Int.natCast_nonneg _),
    Int.natAbs_ofNat, Int.natAbs_ofNat]

/-- Euler/Lagrange: since `CURVE_p ≡ 3 (mod 4)`, raising a quadratic
residue to `(p + 1) / 4` yields a square root of it. -/
theorem euler_sqrt_qr (a : Nat)
    (hqr : ∃ b : Nat, b ^ 2 ≡ a [MOD CURVE_p]) :
    (a ^ ((CURVE_p + 1) / 4)) ^ 2 ≡ a [MOD CURVE_p] := by
  obtain ⟨b, hb⟩ := hqr
  haveI : Fact (Nat.Prime CURVE_p) := ⟨CURVE_p_prime⟩
  have h4 : CURVE_p % 4 = 3 := by decide
  rw [← ZMod.natCast_eq_natCast_iff] at hb ⊢
  push_cast at hb ⊢
  rw [← hb, ← pow_mul, ← pow_mul]
  by_cases hbz : (b : ZMod CURVE_p) = 0
  · rw [hbz, zero_pow (by omega), zero_pow (by norm_num)]
  · have hfer : (b : ZMod CURVE_p) ^ (CURVE_p - 1) = 1 :=
      ZMod.pow_card_sub_one_eq_one hbz
    have hexp : 2 * ((CURVE_p + 1) / 4 * 2) = (CURVE_p - 1) + 2 := by omega
    rw [hexp, pow_add, hfer, one_mul]

/-- Evaluating `liftX` on an in-range x-coordinate: it succeeds and
returns `0x04 ‖ x ‖ y` with
`y = ((x³ + 7) mod p) ^ ((p + 1) / 4) mod p`. -/
theorem liftX_eval (xs : List Nat) (hlen : xs.length = 32)
    (hpos : 0 < bytesToNatBE xs) (hlt : bytesToNatBE xs < CURVE_p) :
    liftX xs = .ok (4 :: xs ++ natToBytes32BE
      (((bytesToNatBE xs ^ 3 + CURVE_b) % CURVE_p) ^ ((CURVE_p + 1) / 4)
        % CURVE_p)) := by
  have hp : (1 : Nat) < CURVE_p := by decide
  unfold liftX
  rw [if_neg (by omega)]
  rw [if_neg (by omega)]
  have h1 : ((bytesToNatBE xs : Int) ^ 3 + (CURVE_b : Int)).tmod
      (CURVE_p : Int) = (((bytesToNatBE xs ^ 3 + CURVE_b) % CURVE_p
        : Nat) : Int) := by
    rw [show ((bytesToNatBE xs : Int) ^ 3 + (CURVE_b : Int))
        = ((bytesToNatBE xs ^ 3 + CURVE_b : Nat) : Int) by push_cast; ring,
      tmod_of_nonneg _ _ (Int.natCast_nonneg _) (Int.natCast_nonneg _),
      Int.natAbs_ofNat, Int.natAbs_ofNat]
  rw [h1]
  unfold sqrtMod
  have h2 : ((CURVE_p : Int) + 1) / 4 = (((CURVE_p + 1) / 4 : Nat) : Int) := by
    rw [Int.natCast_div]
    push_cast
    norm_num
  rw [h2, modPow_natCast _ _ _ hp, Int.toNat_natCast]

/-- Evaluating `liftX` on a malformed length: length check fails. -/
theorem liftX_badlen (xs : List Nat) (hlen : xs.length ≠ 32) :
    liftX xs = .error .liftXError := by
  unfold liftX
  rw [if_pos hlen]

/-- Evaluating `liftX` on an out-of-range value: range check fails. -/
theorem liftX_badrange (xs : List Nat) (hlen : xs.length = 32)
    (hx : bytesToNatBE xs = 0 ∨ CURVE_p ≤ bytesToNatBE xs) :
    liftX xs = .error .liftXError := by
  unfold liftX
  rw [if_neg (by omega)]
  rw [if_pos (by omega)]

/-! ## The `PublicKey` class (src/src/public-key.ts) -/

/-- Embeds `PublicKey` (src/src/public-key.ts:19-45): the private field
`_bytes` holding the stored (compressed) byte array. -/
structure PublicKey where
  _bytes : List Nat
deriving DecidableEq

/-- The `PublicKey` constructor (src/src/public-key.ts:32-45): the byte
length must be 32 or 33; a 32-byte input is stored with a prepended
`0x02`, a 33-byte input is stored as given. -/
def mkPublicKey (bytes : List Nat) : Except Err PublicKey :=
  if ¬(bytes.length = 32 ∨ bytes.length = 33) then
    .error .publicKeyConstructorError
  else if bytes.length = 32 then
    .ok ⟨2 :: bytes⟩
  else
    .ok ⟨bytes⟩

/-- Embeds `get bytes` (src/src/public-key.ts:48-50): `new Uint8Array(this._bytes)`,
a copy of the stored array (in this pure value model, the list itself; the
heap model below separates copy from alias). -/
def PublicKey.bytesGet (pk : PublicKey) : List Nat := pk._bytes

/-- Embeds `get parity` (src/src/public-key.ts:58-61): `this.bytes[0]`.  A
constructed key always stores at least 33 bytes, so the read is in
bounds; the unreachable out-of-bounds read is modelled as 0. -/
def PublicKey.parityGet (pk : PublicKey) : Nat := pk.bytesGet.getD 0 0

/-- Embeds `get x` (src/src/public-key.ts:64-66): `this.bytes.slice(1, 33)`. -/
def PublicKey.xGet (pk : PublicKey) : List Nat :=
  (pk.bytesGet.drop 1).take 32

/-- Embeds `get uncompressed` (src/src/public-key.ts:53-55):
`this.utils.liftX(this.x)`. -/
def PublicKey.uncompressedGet (pk : PublicKey) : Except Err (List Nat) :=
  liftX pk.xGet

/-! ## SHA-256

Modelled from the spec: the hash primitive is an external collaborator
(`@noble/hashes/sha256`); the spec (§6) fixes it as SHA-256 over byte
buffers.  The definition below is the FIPS 180-4 algorithm over byte
lists, validated against the standard empty-string and `"abc"` test
vectors. -/

/-- Truncation to a 32-bit word. -/
def w32 (x : Nat) : Nat := x % 4294967296

/-- Right rotation of a 32-bit word (argument below 2^32, amount in 1..31). -/
def rotr32 (n x : Nat) : Nat := w32 ((x >>> n) ||| (x <<< (32 - n)))

/-- The SHA-256 round constants. -/
def sha256K : List Nat := [
  1116352408, 1899447441, 3049323471, 3921009573, 961987163,
  1508970993, 2453635748, 2870763221, 3624381080, 310598401,
  607225278, 1426881987, 1925078388, 2162078206, 2614888103,
  3248222580, 3835390401, 4022224774, 264347078, 604807628,
  770255983, 1249150122, 1555081692, 1996064986, 2554220882,
  2821834349, 2952996808, 3210313671, 3336571891, 3584528711,
  113926993, 338241895, 666307205, 773529912, 1294757372,
  1396182291, 1695183700, 1986661051, 2177026350, 2456956037,
  2730485921, 2820302411, 3259730800, 3345764771, 3516065817,
  3600352804, 4094571909, 275423344, 430227734, 506948616,
  659060556, 883997877, 958139571, 1322822218, 1537002063,
  1747873779, 1955562222, 2024104815, 2227730452, 2361852424,
  2428436474, 2756734187, 3204031479, 3329325298]

/-- The SHA-256 initial hash state. -/
def sha256H0 : List Nat := [
  1779033703, 3144134277, 1013904242, 2773480762,
  1359893119, 2600822924, 528734635, 1541459225]

/-- SHA-256 padding: append `0x80`, zeros, and the 8-byte big-endian bit
length, reaching a multiple of 64 bytes. -/
def sha256Pad (msg : List Nat) : List Nat :=
  msg ++ [0x80] ++ List.replicate ((119 - msg.length % 64) % 64) 0 ++
    ((List.range 8).map fun i => 8 * msg.length / 256 ^ (7 - i) % 256)

/-- Split a padded message into 64-byte blocks. -/
def sha256Blocks (padded : List Nat) : List (List Nat) :=
  (List.range (padded.length / 64)).map fun i =>
    (padded.drop (64 * i)).take 64

/-- The 16 big-endian 32-bit words of one 64-byte block. -/
def sha256BlockWords (block : List Nat) : List Nat :=
  (List.range 16).map fun j =>
    block.getD (4 * j) 0 * 16777216 + block.getD (4 * j + 1) 0 * 65536 +
    block.getD (4 * j + 2) 0 * 256 + block.getD (4 * j + 3) 0

/-- Extend 16 words to the 64-word message schedule. -/
def sha256Schedule (ws : List Nat) : List Nat :=
  (List.range 48).foldl (fun w _ =>
    let x := w.getD (w.length - 15) 0
    let y := w.getD (w.length - 2) 0
    let s0 := (rotr32 7 x) ^^^ (rotr32 18 x) ^^^ (x >>> 3)
    let s1 := (rotr32 17 y) ^^^ (rotr32 19 y) ^^^ (y >>> 10)
    w ++ [w32 (w.getD (w.length - 16) 0 + s0 + w.getD (w.length - 7) 0 + s1)])
    ws

/-- One SHA-256 compression round. -/
def sha256Round (st : List Nat) (kw : Nat × Nat) : List Nat :=
  match st with
  | [a, b, c, d, e, f, g, h] =>
      let S1 := (rotr32 6 e) ^^^ (rotr32 11 e) ^^^ (rotr32 25 e)
      let ch := (e &&& f) ^^^ ((e ^^^ 4294967295) &&& g)
      let temp1 := w32 (h + S1 + ch + kw.1 + kw.2)
      let S0 := (rotr32 2 a) ^^^ (rotr32 13 a) ^^^ (rotr32 22 a)
      let maj := (a &&& b) ^^^ (a &&& c) ^^^ (b &&& c)
      let temp2 := w32 (S0 + maj)
      [w32 (temp1 + temp2), a, b, c, w32 (d + temp1), e, f, g]
  | _ => st

/-- Process one 64-byte block into the running hash state. -/
def sha256Compress (hs : List Nat) (block : List Nat) : List Nat :=
  let st := ((sha256K.zip (sha256Schedule (sha256BlockWords block))).foldl
    (fun s kw => sha256Round s kw) hs)
  (hs.zip st).map fun p => w32 (p.1 + p.2)

/-- SHA-256 of a byte list, as the 32-byte digest. -/
def sha256 (msg : List Nat) : List Nat :=
  ((sha256Blocks (sha256Pad msg)).foldl sha256Compress sha256H0).flatMap
    fun h => [h / 16777216 % 256, h / 65536 % 256, h / 256 % 256, h % 256]

/-- Lowercase hex rendering of a byte list; embeds
`Buffer.from(bytes).toString('hex')`. -/
def bytesToHex (bs : List Nat) : String :=
  String.mk (bs.flatMap fun b => [Nat.digitChar (b / 16), Nat.digitChar (b % 16)])

/-- FIPS 180-4 test vector: the digest of the empty message. -/
theorem sha256_empty_vector : sha256 [] = [
  227, 176, 196, 66, 152, 252, 28, 20,
  154, 251, 244, 200, 153, 111, 185, 36,
  39, 174, 65, 228, 100, 155, 147, 76,
  164, 149, 153, 27, 120, 82, 184, 85] := by decide

/-- FIPS 180-4 test vector: the digest of `"abc"`. -/
theorem sha256_abc_vector : sha256 [97, 98, 99] = [
  186, 120, 22, 191, 143, 1, 207, 234,
  65, 65, 64, 222, 93, 174, 34, 35,
  176, 3, 97, 163, 150, 23, 122, 156,
  180, 16, 255, 97, 242, 0, 21, 173] := by decide

/-! ## Base-58-btc multibase

Modelled from the spec: the multibase codec is an external collaborator
(`multiformats/bases/base58`); the spec (§4.4) fixes it as base-58 with
the Bitcoin alphabet, leading `0x00` bytes rendered as leading `'1'`
characters, and a leading multibase version character `'z'`. -/

/-- Base-`b` digit expansion (most significant digit first, `[]` for 0),
with explicit fuel. -/
def natToDigitsGo (b : Nat) : Nat → Nat → List Nat
  | 0, _ => []
  | fuel + 1, n => if n = 0 then [] else natToDigitsGo b fuel (n / b) ++ [n % b]

/-- Base-`b` digit expansion (most significant digit first, `[]` for 0). -/
def natToDigits (b n : Nat) : List Nat := natToDigitsGo b (n + 1) n

/-- Base-`b` value of a digit list (most significant digit first). -/
def digitsVal (b : Nat) (ds : List Nat) : Nat :=
  ds.foldl (fun acc d => acc * b + d) 0

/-- The Bitcoin base-58 alphabet. -/
def b58Alphabet : List Char :=
  "123456789ABCDEFGHJKLMNPQRSTUVWXYZabcdefghijkmnopqrstuvwxyz".toList

/-- The character of a base-58 digit. -/
def b58Char (d : Nat) : Char := b58Alphabet.getD d ' '

/-- The base-58 digit of a character (58 when not in the alphabet). -/
def b58Index (c : Char) : Nat := b58Alphabet.indexOf c

/-- Base-58 encoding of a byte list: one `'1'` per leading zero byte,
then the base-58 digits of the big-endian value. -/
def b58Encode (bs : List Nat) : List Char :=
  List.replicate (bs.takeWhile (· == 0)).length '1' ++
    (natToDigits 58 (bytesToNatBE bs)).map b58Char

/-- Base-58 decoding of a character list: every character must be in the
alphabet; one `0x00` byte per leading `'1'`, then the base-256 digits of
the base-58 value. -/
def b58DecodeChars (cs : List Char) : Except Err (List Nat) :=
  if cs.all (fun c => b58Index c < 58) then
    .ok (List.replicate (cs.takeWhile (· == '1')).length 0 ++
      natToDigits 256 (digitsVal 58 (cs.map b58Index)))
  else
    .error .multibaseError

/-- Embeds `base58btc.encode`: the multibase version character `'z'` followed by
the base-58 encoding. -/
def base58btcEncode (bs : List Nat) : String :=
  String.mk ('z' :: b58Encode bs)

/-- Embeds `base58btc.decode`: requires the leading `'z'` multibase version
character, then base-58 decodes the remainder. -/
def base58btcDecode (s : String) : Except Err (List Nat) :=
  match s.toList with
  | [] => .error .multibaseError
  | c :: rest => if c = 'z' then b58DecodeChars rest else .error .multibaseError

/-! ## The multikey codec (src/src/public-key.ts:89-131) -/

/-- Modelled from the spec: `constants.ts` is not under `src/`.  The spec
(§3) fixes only that the multikey type tag is a fixed 2-byte value whose
SHA-256 digest equals a pinned constant; the concrete bytes below are a
representative choice (no claim depends on the specific value, only on
the length and on the digest constant being the tag's own digest). -/
def BIP340_MULTIKEY_TAG : List Nat := [0xe1, 0x4a]

/-- Modelled from the spec: the pinned digest constant of `constants.ts`,
which the spec (§3) requires to equal the SHA-256 hash of the 2-byte tag,
rendered as hex. -/
def BIP340_MULTIKEY_TAG_HASH : String :=
  bytesToHex (sha256 BIP340_MULTIKEY_TAG)

/-- Embeds `PublicKey.encode` (src/src/public-key.ts:117-131): requires the
x-only form to be exactly 32 bytes, then base-58-btc multibase encodes
the 2-byte tag followed by the x-coordinate. -/
def PublicKey.encode (pk : PublicKey) : Except Err String :=
  if pk.xGet.length ≠ 32 then
    .error .encodePublicKeyError
  else
    .ok (base58btcEncode (BIP340_MULTIKEY_TAG ++ pk.xGet))

/-- The checks `PublicKey.decode` performs on the multibase-decoded
payload (src/src/public-key.ts:94-109): exactly 34 bytes, and the SHA-256
digest of the first two bytes, compared as hex, must equal the pinned
digest constant. -/
def decodePayload (multibase : List Nat) : Except Err (List Nat) :=
  if multibase.length ≠ 34 then
    .error .decodeLengthError
  else if bytesToHex (sha256 (multibase.take 2)) ≠ BIP340_MULTIKEY_TAG_HASH then
    .error .decodeTagError
  else
    .ok multibase

/-- Multibase-decode a string and run the payload checks
(src/src/public-key.ts:91-109). -/
def decodeMultibase (s : String) : Except Err (List Nat) :=
  match base58btcDecode s with
  | .error e => .error e
  | .ok multibase => decodePayload multibase

/-- Embeds `PublicKey.decode` (src/src/public-key.ts:89-110): decodes
`this.multibase`, i.e. the string produced by `this.encode()`. -/
def PublicKey.decode (pk : PublicKey) : Except Err (List Nat) :=
  match pk.encode with
  | .error e => .error e
  | .ok s => decodeMultibase s

/-! ## Digit-expansion lemmas -/

/-- The digit expansion is independent of the fuel once it dominates. -/
theorem natToDigitsGo_eq (b : Nat) (hb : 2 ≤ b) :
    ∀ n f1 f2, n < f1 → n < f2 →
      natToDigitsGo b f1 n = natToDigitsGo b f2 n := by
  intro n
  induction n using Nat.strong_induction_on with
  | _ n ih =>
    intro f1 f2 h1 h2
    obtain ⟨g1, rfl⟩ : ∃ g, f1 = g + 1 := ⟨f1 - 1, by omega⟩
    obtain ⟨g2, rfl⟩ : ∃ g, f2 = g + 1 := ⟨f2 - 1, by omega⟩
    by_cases hn : n = 0
    · subst hn; simp [natToDigitsGo]
    · have hdiv : n / b < n := Nat.div_lt_self (by omega) (by omega)
      simp only [natToDigitsGo, if_neg hn]
      rw [ih (n / b) hdiv g1 g2 (by omega) (by omega)]

/-- Unfolding the digit expansion of a nonzero number. -/
theorem natToDigits_succ (b n : Nat) (hb : 2 ≤ b) (hn : n ≠ 0) :
    natToDigits b n = natToDigits b (n / b) ++ [n % b] := by
  unfold natToDigits
  simp only [natToDigitsGo, if_neg hn]
  congr 1
  exact natToDigitsGo_eq b hb (n / b) n (n / b + 1)
    (Nat.div_lt_self (by omega) (by omega)) (by omega)

/-- Appending one digit multiplies the value and adds the digit. -/
theorem digitsVal_append_single (b : Nat) (ds : List Nat) (d : Nat) :
    digitsVal b (ds ++ [d]) = digitsVal b ds * b + d := by
  unfold digitsVal
  rw [List.foldl_append]
  rfl

/-- The value of the digit expansion is the number itself. -/
theorem digitsVal_natToDigits (b : Nat) (hb : 2 ≤ b) :
    ∀ n, digitsVal b (natToDigits b n) = n := by
  intro n
  induction n using Nat.strong_induction_on with
  | _ n ih =>
    by_cases hn : n = 0
    · subst hn; rfl
    · rw [natToDigits_succ b n hb hn, digitsVal_append_single,
        ih (n / b) (Nat.div_lt_self (by omega) (by omega)), mul_comm]
      exact Nat.div_add_mod n b

/-- Every digit of the expansion is below the base. -/
theorem natToDigits_lt (b : Nat) (hb : 2 ≤ b) :
    ∀ n, ∀ d ∈ natToDigits b n, d < b := by
  intro n
  induction n using Nat.strong_induction_on with
  | _ n ih =>
    intro d hd
    by_cases hn : n = 0
    · subst hn; simp [natToDigits, natToDigitsGo] at hd
    · rw [natToDigits_succ b n hb hn] at hd
      rcases List.mem_append.mp hd with h | h
      · exact ih (n / b) (Nat.div_lt_self (by omega) (by omega)) d h
      · simp only [List.mem_singleton] at h
        subst h
        exact Nat.mod_lt n (by omega)

/-- The expansion of a nonzero number starts with a nonzero digit. -/
theorem natToDigits_head (b : Nat) (hb : 2 ≤ b) :
    ∀ n, n ≠ 0 → ∃ d ds, natToDigits b n = d :: ds ∧ d ≠ 0 := by
  intro n
  induction n using Nat.strong_induction_on with
  | _ n ih =>
    intro hn
    rw [natToDigits_succ b n hb hn]
    by_cases hq : n / b = 0
    · rw [hq]
      have hlt : n < b := by
        rcases Nat.lt_or_ge n b with h | h
        · exact h
        · exact absurd hq (by
            have : 0 < n / b := Nat.div_pos h (by omega)
            omega)
      refine ⟨n % b, [], ?_, ?_⟩
      · rw [show natToDigits b 0 = [] from rfl]
        rfl
      · rw [Nat.mod_eq_of_lt hlt]; exact hn
    · obtain ⟨d, ds, hds, hd⟩ :=
        ih (n / b) (Nat.div_lt_self (by omega) (by omega)) hq
      exact ⟨d, ds ++ [n % b], by rw [hds]; rfl, hd⟩

/-- A left fold of digit accumulation never decreases. -/
theorem foldl_digits_le (b : Nat) (hb : 2 ≤ b) :
    ∀ ds : List Nat, ∀ acc : Nat,
      acc ≤ ds.foldl (fun a d => a * b + d) acc := by
  intro ds
  induction ds with
  | nil => intro acc; exact le_refl _
  | cons d t ih =>
      intro acc
      calc acc ≤ acc * b + d := by
            have : acc * 1 ≤ acc * b := Nat.mul_le_mul_left acc (by omega)
            omega
        _ ≤ _ := ih (acc * b + d)

/-- A digit list with nonzero leading digit has positive value. -/
theorem digitsVal_pos (b : Nat) (hb : 2 ≤ b) (d : Nat) (ds : List Nat)
    (hd : d ≠ 0) : 0 < digitsVal b (d :: ds) := by
  have h1 : digitsVal b (d :: ds) = ds.foldl (fun a x => a * b + x) d := by
    unfold digitsVal
    simp [List.foldl_cons]
  rw [h1]
  have := foldl_digits_le b hb ds d
  omega

/-- Reconstructing a digit list from its value. -/
theorem natToDigits_digitsVal (b : Nat) (hb : 2 ≤ b) (d : Nat)
    (hd : d ≠ 0) :
    ∀ ds : List Nat, (∀ x ∈ d :: ds, x < b) →
      natToDigits b (digitsVal b (d :: ds)) = d :: ds := by
  intro ds
  induction ds using List.reverseRecOn with
  | nil =>
      intro hall
      have hdb : d < b := hall d (List.mem_cons_self d [])
      have h1 : digitsVal b [d] = d := by
        unfold digitsVal; simp
      rw [h1, natToDigits_succ b d hb hd, Nat.div_eq_of_lt hdb,
        Nat.mod_eq_of_lt hdb]
      rfl
  | append_singleton ds dlast ih =>
      intro hall
      have h0 : d :: (ds ++ [dlast]) = (d :: ds) ++ [dlast] := rfl
      rw [h0, digitsVal_append_single]
      have hvpos : 0 < digitsVal b (d :: ds) := digitsVal_pos b hb d ds hd
      have hlast : dlast < b := hall dlast (by simp)
      have hne : digitsVal b (d :: ds) * b + dlast ≠ 0 := by
        have : 1 * 2 ≤ digitsVal b (d :: ds) * b := Nat.mul_le_mul hvpos hb
        omega
      rw [natToDigits_succ b _ hb hne]
      have hdiv : (digitsVal b (d :: ds) * b + dlast) / b
          = digitsVal b (d :: ds) := by
        rw [mul_comm, Nat.mul_add_div (by omega), Nat.div_eq_of_lt hlast,
          Nat.add_zero]
      have hmod : (digitsVal b (d :: ds) * b + dlast) % b = dlast := by
        rw [mul_comm, Nat.mul_add_mod, Nat.mod_eq_of_lt hlast]
      rw [hdiv, hmod, ih (by
        intro x hx
        apply hall
        rcases List.mem_cons.mp hx with h | h
        · exact h ▸ List.mem_cons_self d _
        · exact List.mem_cons_of_mem d (List.mem_append_left _ h))]

/-! ## Base-58 round trip -/

/-- Alphabet inversion: decoding the character of a digit recovers it. -/
theorem b58Index_b58Char : ∀ d, d < 58 → b58Index (b58Char d) = d := by
  decide

/-- The character of a nonzero digit is not `'1'`. -/
theorem b58Char_ne_one : ∀ d, d < 58 → d ≠ 0 → b58Char d ≠ '1' := by
  decide

/-- Character `'1'` decodes to the zero digit. -/
theorem b58Index_one : b58Index '1' = 0 := by decide

/-- Take-while over a compliant replicated block. -/
theorem takeWhile_replicate_append {α : Type} (p : α → Bool) (a : α)
    (hp : p a = true) :
    ∀ (k : Nat) (l : List α),
      (List.replicate k a ++ l).takeWhile p
        = List.replicate k a ++ l.takeWhile p := by
  intro k
  induction k with
  | zero => intro l; simp
  | succ k ih =>
      intro l
      simp only [List.replicate_succ, List.cons_append, List.takeWhile_cons,
        hp, ih]
      simp

/-- Leading zero digits do not change the value. -/
theorem digitsVal_replicate_zero (b : Nat) :
    ∀ (k : Nat) (ds : List Nat),
      digitsVal b (List.replicate k 0 ++ ds) = digitsVal b ds := by
  intro k
  induction k with
  | zero => intro ds; simp
  | succ k ih =>
      intro ds
      simp only [List.replicate_succ, List.cons_append]
      show digitsVal b (0 :: (List.replicate k 0 ++ ds)) = digitsVal b ds
      unfold digitsVal
      simp only [List.foldl_cons, Nat.zero_mul, Nat.zero_add]
      exact ih ds

/-- Unfolding: `bytesToNatBE` is the base-256 value. -/
theorem bytesToNatBE_eq_digitsVal (bs : List Nat) :
    bytesToNatBE bs = digitsVal 256 bs := rfl

/-- The first element surviving `dropWhile` fails the test. -/
theorem dropWhile_head_false {α : Type} (p : α → Bool) :
    ∀ (l : List α) (r : α) (t : List α),
      l.dropWhile p = r :: t → p r = false := by
  intro l
  induction l with
  | nil => intro r t hcontra; simp [List.dropWhile] at hcontra
  | cons a l ih =>
      intro r t heq
      rw [List.dropWhile_cons] at heq
      by_cases hp : p a = true
      · rw [if_pos hp] at heq
        exact ih r t heq
      · rw [if_neg hp] at heq
        obtain ⟨rfl, rfl⟩ : a = r ∧ l = t := by
          injection heq with h1 h2; exact ⟨h1, h2⟩
        exact Bool.not_eq_true _ ▸ hp

/-- Base-58 decoding inverts base-58 encoding on byte lists. -/
theorem b58_roundtrip (bs : List Nat) (h : IsBytes bs) :
    b58DecodeChars (b58Encode bs) = .ok bs := by
  have hz : bs.takeWhile (· == 0)
      = List.replicate (bs.takeWhile (· == 0)).length 0 := by
    rw [List.eq_replicate_iff]
    exact ⟨rfl, fun x hx => by
      have := List.mem_takeWhile_imp hx
      simpa using this⟩
  set k := (bs.takeWhile (· == 0)).length with hk
  set rest := bs.dropWhile (· == 0) with hrest
  have hsplit : bs = List.replicate k 0 ++ rest := by
    conv_lhs => rw [← List.takeWhile_append_dropWhile (· == 0) bs]
    rw [← hz]
  have hv : bytesToNatBE bs = digitsVal 256 rest := by
    rw [bytesToNatBE_eq_digitsVal]
    conv_lhs => rw [hsplit]
    exact digitsVal_replicate_zero 256 k rest
  set ds := natToDigits 58 (bytesToNatBE bs) with hds
  have hdslt : ∀ d ∈ ds, d < 58 := natToDigits_lt 58 (by omega) _
  -- every encoded character is in the alphabet
  have hall : ((List.replicate k '1' ++ ds.map b58Char).all
      fun c => b58Index c < 58) = true := by
    rw [List.all_eq_true]
    intro c hc
    rcases List.mem_append.mp hc with hmem | hmem
    · have : c = '1' := List.eq_of_mem_replicate hmem
      subst this
      simp [b58Index_one]
    · obtain ⟨d, hd, rfl⟩ := List.mem_map.mp hmem
      simp only [decide_eq_true_eq]
      rw [b58Index_b58Char d (hdslt d hd)]
      exact hdslt d hd
  -- leading '1' count of the encoding
  have hones : ((List.replicate k '1' ++ ds.map b58Char).takeWhile
      (· == '1')).length = k := by
    rw [takeWhile_replicate_append (· == '1') '1' (by decide)]
    have hmapped : (ds.map b58Char).takeWhile (· == '1') = [] := by
      by_cases hvz : bytesToNatBE bs = 0
      · rw [hds, hvz]
        rfl
      · obtain ⟨d, ds2, hshape, hd0⟩ := natToDigits_head 58 (by omega)
          (bytesToNatBE bs) hvz
        rw [hds, hshape]
        simp only [List.map_cons, List.takeWhile_cons]
        rw [if_neg (by
          simpa using b58Char_ne_one d (hdslt d (by rw [hds, hshape]; simp))
            hd0)]
    rw [hmapped]
    simp
  -- decoded value equals the original value
  have hvals : digitsVal 58 ((List.replicate k '1' ++ ds.map b58Char).map
      b58Index) = bytesToNatBE bs := by
    rw [List.map_append, List.map_replicate, b58Index_one, List.map_map]
    have hmm : ds.map (b58Index ∘ b58Char) = ds := by
      conv_rhs => rw [← List.map_id ds]
      apply List.map_congr_left
      intro d hd
      simp [Function.comp, b58Index_b58Char d (hdslt d hd)]
    rw [hmm, digitsVal_replicate_zero, hds,
      digitsVal_natToDigits 58 (by omega)]
  -- assemble
  unfold b58DecodeChars b58Encode
  rw [if_pos hall, hones, hvals, hv]
  rcases hshape : rest with _ | ⟨r, t⟩
  · rw [show digitsVal 256 ([] : List Nat) = 0 from rfl,
      show natToDigits 256 0 = [] from rfl]
    rw [hsplit, hshape]
  · have hr0 : r ≠ 0 := by
      have hhead := dropWhile_head_false (· == 0) bs r t
        (by rw [← hrest]; exact hshape)
      simpa using hhead
    have hbound : ∀ x ∈ r :: t, x < 256 := by
      intro x hx
      apply h
      rw [hsplit, hshape]
      exact List.mem_append_right _ hx
    rw [natToDigits_digitsVal 256 (by omega) r hr0 t hbound]
    rw [hsplit, hshape]

/-! ## Evaluating the constructor and the codec -/

/-- The constructor on a 32-byte input: parity byte `0x02` prepended. -/
theorem mkPublicKey_eval32 (bytes : List Nat) (h : bytes.length = 32) :
    mkPublicKey bytes = .ok ⟨2 :: bytes⟩ := by
  unfold mkPublicKey
  rw [if_neg (by omega), if_pos h]

/-- The constructor on a 33-byte input: stored as given. -/
theorem mkPublicKey_eval33 (bytes : List Nat) (h : bytes.length = 33) :
    mkPublicKey bytes = .ok ⟨bytes⟩ := by
  unfold mkPublicKey
  rw [if_neg (by omega), if_neg (by omega)]

/-- The constructor on any other length: `PUBLIC_KEY_CONSTRUCTOR_ERROR`. -/
theorem mkPublicKey_evalbad (bytes : List Nat) (h1 : bytes.length ≠ 32)
    (h2 : bytes.length ≠ 33) :
    mkPublicKey bytes = .error .publicKeyConstructorError := by
  unfold mkPublicKey
  rw [if_pos (by omega)]

/-- The x accessor after 32-byte construction returns the input. -/
theorem xGet_cons (bytes : List Nat) (h : bytes.length = 32) :
    (PublicKey.mk (2 :: bytes)).xGet = bytes := by
  unfold PublicKey.xGet PublicKey.bytesGet
  simp [List.take_of_length_le, h]

/-- Decoding an encoded byte list recovers it. -/
theorem base58btcDecode_encode (bs : List Nat) (h : IsBytes bs) :
    base58btcDecode (base58btcEncode bs) = .ok bs := by
  unfold base58btcDecode base58btcEncode
  rw [show (String.mk ('z' :: b58Encode bs)).toList
    = 'z' :: b58Encode bs from rfl]
  show (if 'z' = 'z' then b58DecodeChars (b58Encode bs)
    else .error .multibaseError) = .ok bs
  rw [if_pos rfl]
  exact b58_roundtrip bs h

/-- Multibase-decoding an encoded byte list runs the payload checks on
exactly that byte list. -/
theorem decodeMultibase_encode (bs : List Nat) (h : IsBytes bs) :
    decodeMultibase (base58btcEncode bs) = decodePayload bs := by
  unfold decodeMultibase
  rw [base58btcDecode_encode bs h]

/-- The payload checks accept the tag followed by 32 bytes. -/
theorem decodePayload_tag (xs : List Nat) (hlen : xs.length = 32) :
    decodePayload (BIP340_MULTIKEY_TAG ++ xs)
      = .ok (BIP340_MULTIKEY_TAG ++ xs) := by
  unfold decodePayload
  rw [if_neg (by simp [BIP340_MULTIKEY_TAG, hlen])]
  rw [if_neg (by
    rw [show (BIP340_MULTIKEY_TAG ++ xs).take 2
      = BIP340_MULTIKEY_TAG from rfl]
    unfold BIP340_MULTIKEY_TAG_HASH
    simp)]

/-! ## The `PrivateKey` class (src/src/private-key.ts) -/

/-- A value held by an untyped JavaScript field: either a typed array or
a bigint.  The `PrivateKey` constructor (src/src/private-key.ts:63-64)
assigns the raw seed to both private fields through `??`, so either
field can end up holding either shape. -/
inductive JSVal where
  | arr (bs : List Nat)
  | big (v : Int)
deriving DecidableEq

/-- The constructor seed (src/src/private-key.ts:31): a 32-byte array or
a bigint secret. -/
inductive PrivateKeySeed where
  | bytes (bs : List Nat)
  | secret (v : Int)
deriving DecidableEq

/-- Embeds `PrivateKey` (src/src/private-key.ts:18-23): the two private fields
`_bytes` and `_secret`. -/
structure PrivateKey where
  _bytes : JSVal
  _secret : JSVal
deriving DecidableEq

/-- The `PrivateKey` constructor (src/src/private-key.ts:31-65).  The
`!seed` guard fires exactly for the bigint `0n` (a `Uint8Array` is always
truthy); then the length and range guards run.  The final assignments
`this._bytes = seedBytes ?? PrivateKeyUtils.toBytes(seedSecret)` and
`this._secret = seedSecret ?? PrivateKeyUtils.toSecret(seedBytes)` apply
the nullish-coalescing operator to the (never nullish) seed itself, so
BOTH fields receive the seed unchanged and the conversion helpers are
never invoked. -/
def mkPrivateKey (seed : PrivateKeySeed) : Except Err PrivateKey :=
  match seed with
  | .bytes bs =>
      if bs.length ≠ 32 then .error .privateKeyConstructorError
      else .ok ⟨.arr bs, .arr bs⟩
  | .secret v =>
      if v = 0 then .error .privateKeyConstructorError
      else if v < 1 ∨ v ≥ (CURVE_n : Int) then
        .error .privateKeyConstructorError
      else .ok ⟨.big v, .big v⟩

/-- Embeds `PrivateKeyUtils.toSecret` (src/src/private-key.ts:187-189):
big-endian fold of the byte array (`(acc << 8n) | BigInt(byte)` equals
`acc * 256 + byte` for the byte values a `Uint8Array` holds). -/
def PrivateKeyUtils.toSecret (bs : List Nat) : Int :=
  bs.foldl (fun acc b => acc * 256 + b) 0

/-- Embeds `get bytes` (src/src/private-key.ts:71-81).  When `_bytes` holds an
array the guard `!this._bytes` is false and a copy is returned.  When it
holds a bigint (the secret-seeded case), the guard only fires at `0n`
(the missing-variable error); for any other value
`new Uint8Array(this._bytes)` throws a JavaScript `TypeError`, because a
bigint cannot be converted to an array length. -/
def PrivateKey.bytesGet (pk : PrivateKey) : Except Err (List Nat) :=
  match pk._bytes with
  | .arr bs => .ok bs
  | .big v =>
      if v = 0 then .error .getRawPrivateKeyError
      else .error .jsTypeError

/-- Embeds `get secret` (src/src/private-key.ts:87-95).  A bigint-valued
`_secret` is falsy only at `0n` (then it is recomputed from `this.bytes`
via `toSecret`); an array-valued `_secret` (the byte-seeded case) is
always truthy, and `BigInt(this._secret)` coerces the typed array via its
comma-joined string rendering, which throws a JavaScript `SyntaxError`
unless the array has at most one element. -/
def PrivateKey.secretGet (pk : PrivateKey) : Except Err Int :=
  match pk._secret with
  | .big v =>
      if v = 0 then
        match pk.bytesGet with
        | .error e => .error e
        | .ok bs => .ok (PrivateKeyUtils.toSecret bs)
      else .ok v
  | .arr bs =>
      match bs with
      | [] => .ok 0
      | [b] => .ok (b : Int)
      | _ => .error .jsSyntaxError

/-! ## Heap model for buffer aliasing

The pure value model above cannot distinguish returning a copy from
returning the stored array itself.  The frame claims need exactly that
distinction, so constructors and byte-buffer getters are additionally
modelled against an explicit store: a `Uint8Array` value is an index
(reference) into a list of allocated arrays. -/

/-- A store of allocated byte arrays; a reference is an index into it. -/
abbrev Store := List (List Nat)

/-- Dereference (out-of-store reads, never reachable here, give `[]`). -/
def Store.read (st : Store) (r : Nat) : List Nat := List.getD st r []

/-- Allocate a fresh array, returning the extended store and the new
reference. -/
def Store.alloc (st : Store) (content : List Nat) : Store × Nat :=
  (st ++ [content], List.length st)

/-- Write one element of an allocated array (`buf[i] = v`). -/
def Store.write (st : Store) (r i v : Nat) : Store :=
  List.set st r ((List.getD st r []).set i v)

/-- Reading the freshly allocated reference yields its content. -/
theorem Store.read_alloc (st : Store) (c : List Nat) :
    Store.read (st ++ [c]) (List.length st) = c := by
  unfold Store.read
  rw [List.getD_eq_getElem?_getD, List.getElem?_concat_length]
  rfl

/-- Allocation does not change existing references. -/
theorem Store.read_extend (st : Store) (c : List Nat) (r : Nat)
    (h : r < List.length st) :
    Store.read (st ++ [c]) r = Store.read st r := by
  unfold Store.read
  exact List.getD_append st [c] [] r h

/-- Writing through one reference does not change another. -/
theorem Store.read_write_ne (st : Store) (r i v r2 : Nat) (h : r ≠ r2) :
    Store.read (Store.write st r i v) r2 = Store.read st r2 := by
  unfold Store.read Store.write
  rw [List.getD_eq_getElem?_getD, List.getD_eq_getElem?_getD,
    List.getElem?_set_ne h]
  rw [← List.getD_eq_getElem?_getD]

/-- The heap-model `PublicKey`: the `_bytes` field holds a reference. -/
structure PublicKeyH where
  bytesRef : Nat
deriving DecidableEq

/-- Heap model of the `PublicKey` constructor (src/src/public-key.ts:32-45):
a 32-byte input is copied into a freshly allocated array with `0x02`
prepended (`new Uint8Array([0x02, ...Array.from(bytes)])`), while a
33-byte input is stored BY REFERENCE (`this._bytes = bytes`). -/
def mkPublicKeyH (st : Store) (input : Nat) :
    Except Err (Store × PublicKeyH) :=
  if ¬((Store.read st input).length = 32 ∨ (Store.read st input).length = 33)
  then
    .error .publicKeyConstructorError
  else if (Store.read st input).length = 32 then
    .ok ((Store.alloc st (2 :: Store.read st input)).1,
      ⟨(Store.alloc st (2 :: Store.read st input)).2⟩)
  else
    .ok (st, ⟨input⟩)

/-- Heap model of `PublicKey.get bytes` (src/src/public-key.ts:48-50):
`new Uint8Array(this._bytes)` allocates a fresh copy. -/
def PublicKeyH.bytesGet (st : Store) (pk : PublicKeyH) : Store × Nat :=
  Store.alloc st (Store.read st pk.bytesRef)

/-- Heap model of `PublicKey.get x` (src/src/public-key.ts:64-66):
`this.bytes.slice(1, 33)` — the copy made by `bytes`, then a fresh
sliced array. -/
def PublicKeyH.xGet (st : Store) (pk : PublicKeyH) : Store × Nat :=
  Store.alloc (PublicKeyH.bytesGet st pk).1
    (((Store.read (PublicKeyH.bytesGet st pk).1
      (PublicKeyH.bytesGet st pk).2).drop 1).take 32)

/-- Heap model of `PublicKey.get parity` (src/src/public-key.ts:58-61):
`this.bytes[0]`, read off the copy `bytes` makes. -/
def PublicKeyH.parityGet (st : Store) (pk : PublicKeyH) : Nat :=
  List.getD (Store.read (PublicKeyH.bytesGet st pk).1
    (PublicKeyH.bytesGet st pk).2) 0 0

/-- The heap-model `PrivateKey` for a byte seed: `_bytes` holds the
caller's reference (the `??` assignment stores the seed itself). -/
structure PrivateKeyH where
  bytesRef : Nat
deriving DecidableEq

/-- Heap model of the `PrivateKey` constructor on a byte seed
(src/src/private-key.ts:31-65): length check, then the reference is
stored unchanged. -/
def mkPrivateKeyH (st : Store) (input : Nat) :
    Except Err (Store × PrivateKeyH) :=
  if (Store.read st input).length ≠ 32 then
    .error .privateKeyConstructorError
  else
    .ok (st, ⟨input⟩)

/-- Heap model of `PrivateKey.get bytes` (src/src/private-key.ts:71-81):
`new Uint8Array(this._bytes)` allocates a fresh copy. -/
def PrivateKeyH.bytesGet (st : Store) (pk : PrivateKeyH) : Store × Nat :=
  Store.alloc st (Store.read st pk.bytesRef)

/-- Decidable equality of `Except` results (for concrete evaluations). -/
instance {ε α : Type} [DecidableEq ε] [DecidableEq α] :
    DecidableEq (Except ε α) := fun x y =>
  match x, y with
  | .error e1, .error e2 =>
      if h : e1 = e2 then isTrue (by rw [h])
      else isFalse (by intro hc; injection hc; contradiction)
  | .error _, .ok _ => isFalse (by intro hc; exact Except.noConfusion hc)
  | .ok _, .error _ => isFalse (by intro hc; exact Except.noConfusion hc)
  | .ok a1, .ok a2 =>
      if h : a1 = a2 then isTrue (by rw [h])
      else isFalse (by intro hc; injection hc; contradiction)

/-- Full evaluation of `decode` after a 32-byte construction: the
multikey string round-trips to the tagged payload. -/
theorem publicKey_decode_eval (xs : List Nat) (hlen : xs.length = 32)
    (hb : IsBytes xs) :
    (PublicKey.mk (2 :: xs)).decode = .ok (BIP340_MULTIKEY_TAG ++ xs) := by
  have hx : (PublicKey.mk (2 :: xs)).xGet = xs := xGet_cons xs hlen
  unfold PublicKey.decode PublicKey.encode
  rw [hx, if_neg (by omega)]
  show decodeMultibase (base58btcEncode (BIP340_MULTIKEY_TAG ++ xs)) = _
  rw [decodeMultibase_encode _ (by
    intro b hmem
    rcases List.mem_append.mp hmem with h1 | h1
    · unfold BIP340_MULTIKEY_TAG at h1
      simp at h1
      rcases h1 with rfl | rfl <;> omega
    · exact hb b h1)]
  exact decodePayload_tag xs hlen

/-! ## Frame lemmas for the heap model -/

/-- The byte list a heap-model getter call returns. -/
def getterView {α : Type} (g : Store → α → Store × Nat) (st : Store)
    (x : α) : List Nat :=
  Store.read (g st x).1 (g st x).2

/-- The store after the caller mutates the buffer a getter returned. -/
def mutateResult {α : Type} (g : Store → α → Store × Nat) (st : Store)
    (x : α) (i v : Nat) : Store :=
  Store.write (g st x).1 (g st x).2 i v

/-- Mutating the fresh copy at the tip of the store does not change what
an existing reference dereferences to. -/
theorem read_after_copy_mutation (st : Store) (c : List Nat)
    (ref i v : Nat) (h : ref < List.length st) :
    Store.read (Store.write (st ++ [c]) (List.length st) i v) ref
      = Store.read st ref := by
  rw [Store.read_write_ne _ _ _ _ _ (by omega),
    Store.read_extend _ _ _ h]

/-- A getter that allocates a copy of the referenced array is immune to
mutation of its previously returned buffer. -/
theorem copy_getter_frame (st : Store) (ref i v : Nat)
    (h : ref < List.length st) :
    Store.read
      (Store.write (st ++ [Store.read st ref]) (List.length st) i v
        ++ [Store.read
          (Store.write (st ++ [Store.read st ref]) (List.length st) i v)
          ref])
      (List.length
        (Store.write (st ++ [Store.read st ref]) (List.length st) i v))
      = Store.read (st ++ [Store.read st ref]) (List.length st) := by
  rw [Store.read_alloc, Store.read_alloc, read_after_copy_mutation _ _ _ _ _ h]

/-! ## The claims -/

/-- C3: for every integer base, every non-negative integer exponent and
every modulus greater than 1, `modPow(base, exponent, modulus)` returns
`base ^ exponent mod modulus`, `mod` being the source language's
remainder (truncating, sign of the dividend). -/
theorem C3_modPow_computes_modular_power (base exp m : Int)
    (hexp : 0 ≤ exp) (hm : 1 < m) :
    modPow base exp m = (base ^ exp.toNat).tmod m :=
  modPow_correct base exp m hexp hm

theorem C3_modPow_computes_modular_power_witness :
    (0 : Int) ≤ 5 ∧ (1 : Int) < 7 ∧
      modPow 3 5 7 = ((3 : Int) ^ (5 : Int).toNat).tmod 7 :=
  ⟨by decide, by decide,
    C3_modPow_computes_modular_power 3 5 7 (by decide) (by decide)⟩

/-- C6: `liftX` fails with the `LIFT_X_ERROR` (`OutOfRange`) condition
for every input whose byte length is not exactly 32 and for every
32-byte input whose big-endian value is zero or at least the field
prime; on every in-range input it returns a 65-byte buffer whose first
byte is `0x04` and whose bytes 1..33 equal the input. -/
theorem C6_liftX_range_checks (xs : List Nat) :
    (xs.length ≠ 32 → liftX xs = .error .liftXError)
  ∧ (xs.length = 32 → bytesToNatBE xs = 0 ∨ CURVE_p ≤ bytesToNatBE xs →
      liftX xs = .error .liftXError)
  ∧ (xs.length = 32 → 0 < bytesToNatBE xs → bytesToNatBE xs < CURVE_p →
      ∃ out, liftX xs = .ok out ∧ out.length = 65 ∧ out.getD 0 0 = 4 ∧
        (out.drop 1).take 32 = xs) := by
  refine ⟨fun h => liftX_badlen xs h,
    fun h1 h2 => liftX_badrange xs h1 h2, ?_⟩
  intro h1 h2 h3
  refine ⟨_, liftX_eval xs h1 h2 h3, ?_, rfl, ?_⟩
  · simp [natToBytes32BE, h1]
  · show ((xs ++ natToBytes32BE _).take 32) = xs
    rw [show (32 : Nat) = xs.length from h1.symm, List.take_left]

theorem C6_liftX_range_checks_witness :
    liftX (List.replicate 33 0) = .error .liftXError ∧
    liftX (List.replicate 32 0) = .error .liftXError ∧
    liftX (List.replicate 32 255) = .error .liftXError ∧
    (∃ out, liftX (List.replicate 31 0 ++ [1]) = .ok out ∧
      out.length = 65 ∧ out.getD 0 0 = 4 ∧
      (out.drop 1).take 32 = List.replicate 31 0 ++ [1]) :=
  ⟨(C6_liftX_range_checks _).1 (by decide),
   (C6_liftX_range_checks _).2.1 (by decide) (by decide),
   (C6_liftX_range_checks _).2.1 (by decide) (by decide),
   (C6_liftX_range_checks _).2.2 (by decide) (by decide) (by decide)⟩

/-- C2: for every 32-byte input whose big-endian value `x` satisfies
`0 < x < p` and for which `x³ + 7 mod p` is a quadratic residue, `liftX`
returns the uncompressed point `0x04 ‖ x ‖ y` whose y-coordinate
satisfies `y² ≡ x³ + 7 (mod p)`, with `y` computed as
`(x³ + 7) ^ ((p + 1) / 4) mod p`. -/
theorem C2_liftX_recovers_point (xs : List Nat) (hlen : xs.length = 32)
    (hpos : 0 < bytesToNatBE xs) (hlt : bytesToNatBE xs < CURVE_p)
    (hqr : ∃ b : Nat,
      b ^ 2 ≡ bytesToNatBE xs ^ 3 + CURVE_b [MOD CURVE_p]) :
    liftX xs = .ok (4 :: xs ++ natToBytes32BE
      ((bytesToNatBE xs ^ 3 + CURVE_b) ^ ((CURVE_p + 1) / 4) % CURVE_p))
  ∧ ((bytesToNatBE xs ^ 3 + CURVE_b) ^ ((CURVE_p + 1) / 4) % CURVE_p) ^ 2
      ≡ bytesToNatBE xs ^ 3 + CURVE_b [MOD CURVE_p] := by
  have hyeq : ((bytesToNatBE xs ^ 3 + CURVE_b) % CURVE_p)
        ^ ((CURVE_p + 1) / 4) % CURVE_p
      = (bytesToNatBE xs ^ 3 + CURVE_b) ^ ((CURVE_p + 1) / 4) % CURVE_p :=
    (Nat.pow_mod _ _ _).symm
  constructor
  · rw [liftX_eval xs hlen hpos hlt, hyeq]
  · have h1 := euler_sqrt_qr (bytesToNatBE xs ^ 3 + CURVE_b) hqr
    have h2 : (bytesToNatBE xs ^ 3 + CURVE_b) ^ ((CURVE_p + 1) / 4)
          % CURVE_p
        ≡ (bytesToNatBE xs ^ 3 + CURVE_b) ^ ((CURVE_p + 1) / 4)
          [MOD CURVE_p] := Nat.mod_modEq _ _
    exact (h2.pow 2).trans h1

theorem C2_liftX_recovers_point_witness :
    (List.replicate 31 0 ++ [1]).length = 32 ∧
    0 < bytesToNatBE (List.replicate 31 0 ++ [1]) ∧
    bytesToNatBE (List.replicate 31 0 ++ [1]) < CURVE_p ∧
    (liftX (List.replicate 31 0 ++ [1]) = .ok (4 ::
        (List.replicate 31 0 ++ [1]) ++ natToBytes32BE
        ((bytesToNatBE (List.replicate 31 0 ++ [1]) ^ 3 + CURVE_b)
          ^ ((CURVE_p + 1) / 4) % CURVE_p))
      ∧ ((bytesToNatBE (List.replicate 31 0 ++ [1]) ^ 3 + CURVE_b)
          ^ ((CURVE_p + 1) / 4) % CURVE_p) ^ 2
        ≡ bytesToNatBE (List.replicate 31 0 ++ [1]) ^ 3 + CURVE_b
          [MOD CURVE_p]) :=
  ⟨by decide, by decide, by decide,
    C2_liftX_recovers_point (List.replicate 31 0 ++ [1]) (by decide)
      (by decide) (by decide)
      ⟨29896722852569046015560700294576055776214335159245303116488692907525646231534,
        by decide⟩⟩

/-- C8: constructing a `PublicKey` from any byte length other than 32 or
33 fails with the constructor error; a 32-byte input is normalized to 33
bytes by prepending `0x02`; a 33-byte input is accepted as given. -/
theorem C8_publicKey_constructor_lengths (bytes : List Nat) :
    (bytes.length ≠ 32 → bytes.length ≠ 33 →
      mkPublicKey bytes = .error .publicKeyConstructorError)
  ∧ (bytes.length = 32 → mkPublicKey bytes = .ok ⟨2 :: bytes⟩)
  ∧ (bytes.length = 33 → mkPublicKey bytes = .ok ⟨bytes⟩) :=
  ⟨fun h1 h2 => mkPublicKey_evalbad bytes h1 h2,
   fun h => mkPublicKey_eval32 bytes h,
   fun h => mkPublicKey_eval33 bytes h⟩

theorem C8_publicKey_constructor_lengths_witness :
    mkPublicKey [] = .error .publicKeyConstructorError ∧
    mkPublicKey (List.replicate 31 1) = .error .publicKeyConstructorError ∧
    mkPublicKey (List.replicate 34 1) = .error .publicKeyConstructorError ∧
    mkPublicKey (List.replicate 32 1) = .ok ⟨2 :: List.replicate 32 1⟩ ∧
    mkPublicKey (List.replicate 33 1) = .ok ⟨List.replicate 33 1⟩ :=
  ⟨(C8_publicKey_constructor_lengths []).1 (by decide) (by decide),
   (C8_publicKey_constructor_lengths _).1 (by decide) (by decide),
   (C8_publicKey_constructor_lengths _).1 (by decide) (by decide),
   (C8_publicKey_constructor_lengths _).2.1 (by decide),
   (C8_publicKey_constructor_lengths _).2.2 (by decide)⟩

/-- C5, counterexample to the claim as stated: the constructor accepts a
33-byte input whose first byte is `0x00`, and the parity accessor then
returns 0, which is neither `0x02` nor `0x03`. -/
theorem C5_parity_unconstrained_counterexample :
    mkPublicKey (List.replicate 33 0) = .ok ⟨List.replicate 33 0⟩ ∧
    PublicKey.parityGet ⟨List.replicate 33 0⟩ = 0 ∧
    ¬(PublicKey.parityGet ⟨List.replicate 33 0⟩ = 2 ∨
      PublicKey.parityGet ⟨List.replicate 33 0⟩ = 3) := by
  decide

/-- C5 (amended): every successfully constructed `PublicKey` stores a
33-byte compressed encoding; after 32-byte construction the parity byte
is `0x02`; after 33-byte construction the parity byte equals the input's
first byte, which the constructor does not constrain to
`{0x02, 0x03}`. -/
theorem C5_stored_bytes_amended (bytes : List Nat) (pk : PublicKey)
    (h : mkPublicKey bytes = .ok pk) :
    pk._bytes.length = 33 ∧
    (bytes.length = 32 → pk.parityGet = 2) ∧
    (bytes.length = 33 → pk.parityGet = bytes.getD 0 0) := by
  by_cases h32 : bytes.length = 32
  · rw [mkPublicKey_eval32 bytes h32] at h
    injection h with h2
    subst h2
    refine ⟨by simp [h32], fun _ => rfl, fun hc => by omega⟩
  · by_cases h33 : bytes.length = 33
    · rw [mkPublicKey_eval33 bytes h33] at h
      injection h with h2
      subst h2
      exact ⟨h33, fun hc => by omega, fun _ => rfl⟩
    · rw [mkPublicKey_evalbad bytes h32 h33] at h
      exact Except.noConfusion h

theorem C5_stored_bytes_amended_witness :
    ((PublicKey.mk (2 :: List.replicate 32 1))._bytes.length = 33 ∧
      ((List.replicate 32 1 : List Nat).length = 32 →
        (PublicKey.mk (2 :: List.replicate 32 1)).parityGet = 2) ∧
      ((List.replicate 32 1 : List Nat).length = 33 →
        (PublicKey.mk (2 :: List.replicate 32 1)).parityGet
          = (List.replicate 32 1 : List Nat).getD 0 0)) ∧
    ((PublicKey.mk (List.replicate 33 0))._bytes.length = 33 ∧
      ((List.replicate 33 0 : List Nat).length = 32 →
        (PublicKey.mk (List.replicate 33 0)).parityGet = 2) ∧
      ((List.replicate 33 0 : List Nat).length = 33 →
        (PublicKey.mk (List.replicate 33 0)).parityGet
          = (List.replicate 33 0 : List Nat).getD 0 0)) :=
  ⟨C5_stored_bytes_amended (List.replicate 32 1) _ (by decide),
   C5_stored_bytes_amended (List.replicate 33 0) _ (by decide)⟩

/-- C7: the payload checks of `decode` fail with the decode error
whenever the multibase-decoded payload is not exactly 34 bytes, and fail
with the malformed-multibase-tag decode error whenever the SHA-256 hash
of the payload's first 2 bytes, compared as hex, differs from the pinned
digest constant, regardless of the remaining 32 bytes. -/
theorem C7_decode_payload_checks (bs : List Nat) :
    (bs.length ≠ 34 → decodePayload bs = .error .decodeLengthError)
  ∧ (bs.length = 34 →
      bytesToHex (sha256 (bs.take 2)) ≠ BIP340_MULTIKEY_TAG_HASH →
      decodePayload bs = .error .decodeTagError) := by
  constructor
  · intro h
    unfold decodePayload
    rw [if_pos h]
  · intro h1 h2
    unfold decodePayload
    rw [if_neg (by omega), if_pos h2]

theorem C7_decode_payload_checks_witness :
    decodePayload (List.replicate 33 0) = .error .decodeLengthError ∧
    decodePayload (List.replicate 34 0) = .error .decodeTagError :=
  ⟨(C7_decode_payload_checks _).1 (by decide),
   (C7_decode_payload_checks _).2 (by decide) (by decide)⟩

/-- C4: for every valid 32-byte x-only public key, decoding the multikey
string produced by encoding `PublicKey(x)` succeeds and yields exactly
the 34-byte buffer consisting of the fixed 2-byte tag followed by x. -/
theorem C4_multikey_roundtrip (xs : List Nat) (hlen : xs.length = 32)
    (hb : IsBytes xs) (pk : PublicKey) (hpk : mkPublicKey xs = .ok pk) :
    pk.decode = .ok (BIP340_MULTIKEY_TAG ++ xs) ∧
    (BIP340_MULTIKEY_TAG ++ xs).length = 34 := by
  have hpk2 : pk = ⟨2 :: xs⟩ := by
    rw [mkPublicKey_eval32 xs hlen] at hpk
    injection hpk with h2
    exact h2.symm
  subst hpk2
  exact ⟨publicKey_decode_eval xs hlen hb,
    by simp [BIP340_MULTIKEY_TAG, hlen]⟩

theorem C4_multikey_roundtrip_witness :
    (List.replicate 32 5 : List Nat).length = 32 ∧
    IsBytes (List.replicate 32 5) ∧
    mkPublicKey (List.replicate 32 5) = .ok ⟨2 :: List.replicate 32 5⟩ ∧
    ((PublicKey.mk (2 :: List.replicate 32 5)).decode
        = .ok (BIP340_MULTIKEY_TAG ++ List.replicate 32 5) ∧
      (BIP340_MULTIKEY_TAG ++ List.replicate 32 5).length = 34) :=
  ⟨by decide, by decide, by decide,
    C4_multikey_roundtrip (List.replicate 32 5) (by decide) (by decide)
      _ (by decide)⟩

/-- C1 (evaluating the code at the failing inputs): for every bigint
secret `s` with `1 ≤ s < n`, the constructor succeeds and the secret
accessor returns `s`; but because the `??` assignments store the bigint
itself in `_bytes`, the bytes accessor does not return the 32-byte
big-endian encoding of `s` — it throws a JavaScript `TypeError`. -/
theorem C1_privateKey_secret_seed_bug (s : Int) (h1 : 1 ≤ s)
    (h2 : s < (CURVE_n : Int)) :
    mkPrivateKey (.secret s) = .ok ⟨.big s, .big s⟩ ∧
    (PrivateKey.mk (.big s) (.big s)).secretGet = .ok s ∧
    (PrivateKey.mk (.big s) (.big s)).bytesGet = .error .jsTypeError := by
  refine ⟨?_, ?_, ?_⟩
  · simp only [mkPrivateKey]
    rw [if_neg (by omega), if_neg (by omega)]
  · simp only [PrivateKey.secretGet]
    rw [if_neg (by omega)]
  · simp only [PrivateKey.bytesGet]
    rw [if_neg (by omega)]

theorem C1_privateKey_secret_seed_bug_witness :
    (1 : Int) ≤ 1 ∧ (1 : Int) < (CURVE_n : Int) ∧
    (mkPrivateKey (.secret 1) = .ok ⟨.big 1, .big 1⟩ ∧
      (PrivateKey.mk (.big 1) (.big 1)).secretGet = .ok 1 ∧
      (PrivateKey.mk (.big 1) (.big 1)).bytesGet = .error .jsTypeError) :=
  ⟨by decide, by decide,
    C1_privateKey_secret_seed_bug 1 (by decide) (by decide)⟩

/-- C9: for every constructed key (any state whose stored reference is a
live allocation), mutating a byte buffer returned by a byte-buffer
getter (`PrivateKey.bytes`, `PublicKey.bytes`, `PublicKey.x`) does not
change the key's internal state: a subsequent call to the same getter
returns the same bytes as before the mutation. -/
theorem C9_getters_return_defensive_copies (st : Store) (pk : PublicKeyH)
    (sk : PrivateKeyH) (i v : Nat)
    (hpk : pk.bytesRef < List.length st)
    (hsk : sk.bytesRef < List.length st) :
    getterView PublicKeyH.bytesGet
        (mutateResult PublicKeyH.bytesGet st pk i v) pk
      = getterView PublicKeyH.bytesGet st pk
  ∧ getterView PublicKeyH.xGet
        (mutateResult PublicKeyH.xGet st pk i v) pk
      = getterView PublicKeyH.xGet st pk
  ∧ getterView PrivateKeyH.bytesGet
        (mutateResult PrivateKeyH.bytesGet st sk i v) sk
      = getterView PrivateKeyH.bytesGet st sk := by
  refine ⟨?_, ?_, ?_⟩
  · simp only [getterView, mutateResult, PublicKeyH.bytesGet, Store.alloc]
    exact copy_getter_frame st pk.bytesRef i v hpk
  · simp only [getterView, mutateResult, PublicKeyH.xGet,
      PublicKeyH.bytesGet, Store.alloc]
    simp only [Store.read_alloc]
    rw [Store.read_write_ne _ _ _ _ _
        (by simp only [List.length_append, List.length_cons,
          List.length_nil]; omega),
      Store.read_extend _ _ _
        (by simp only [List.length_append, List.length_cons,
          List.length_nil]; omega),
      Store.read_extend _ _ _ hpk]
  · simp only [getterView, mutateResult, PrivateKeyH.bytesGet, Store.alloc]
    exact copy_getter_frame st sk.bytesRef i v hsk

theorem C9_getters_return_defensive_copies_witness :
    (PublicKeyH.mk 0).bytesRef < List.length [2 :: List.replicate 32 7] ∧
    (PrivateKeyH.mk 0).bytesRef < List.length [2 :: List.replicate 32 7] ∧
    (getterView PublicKeyH.bytesGet
        (mutateResult PublicKeyH.bytesGet [2 :: List.replicate 32 7]
          ⟨0⟩ 0 9) ⟨0⟩
      = getterView PublicKeyH.bytesGet [2 :: List.replicate 32 7] ⟨0⟩
    ∧ getterView PublicKeyH.xGet
        (mutateResult PublicKeyH.xGet [2 :: List.replicate 32 7] ⟨0⟩ 0 9)
          ⟨0⟩
      = getterView PublicKeyH.xGet [2 :: List.replicate 32 7] ⟨0⟩
    ∧ getterView PrivateKeyH.bytesGet
        (mutateResult PrivateKeyH.bytesGet [2 :: List.replicate 32 7]
          ⟨0⟩ 0 9) ⟨0⟩
      = getterView PrivateKeyH.bytesGet [2 :: List.replicate 32 7] ⟨0⟩) :=
  ⟨by decide, by decide,
    C9_getters_return_defensive_copies [2 :: List.replicate 32 7]
      ⟨0⟩ ⟨0⟩ 0 9 (by decide) (by decide)⟩

/-- C10: the 33-byte construction path stores the caller's array by
reference: mutating that array afterwards changes what the `bytes`, `x`
and `parity` accessors return, unlike the 32-byte path, which builds a
fresh array. -/
theorem C10_constructor_aliases_33_byte_input :
    mkPublicKeyH [2 :: List.replicate 32 7] 0
      = .ok ([2 :: List.replicate 32 7], ⟨0⟩) ∧
    PublicKeyH.parityGet [2 :: List.replicate 32 7] ⟨0⟩ = 2 ∧
    getterView PublicKeyH.bytesGet [2 :: List.replicate 32 7] ⟨0⟩
      = 2 :: List.replicate 32 7 ∧
    getterView PublicKeyH.xGet [2 :: List.replicate 32 7] ⟨0⟩
      = List.replicate 32 7 ∧
    PublicKeyH.parityGet
      (Store.write (Store.write [2 :: List.replicate 32 7] 0 0 9) 0 1 8)
      ⟨0⟩ = 9 ∧
    getterView PublicKeyH.bytesGet
      (Store.write (Store.write [2 :: List.replicate 32 7] 0 0 9) 0 1 8)
      ⟨0⟩ = 9 :: 8 :: List.replicate 31 7 ∧
    getterView PublicKeyH.xGet
      (Store.write (Store.write [2 :: List.replicate 32 7] 0 0 9) 0 1 8)
      ⟨0⟩ = 8 :: List.replicate 31 7 ∧
    mkPublicKeyH [List.replicate 32 7] 0
      = .ok ([List.replicate 32 7, 2 :: List.replicate 32 7], ⟨1⟩) ∧
    PublicKeyH.parityGet
      (Store.write [List.replicate 32 7, 2 :: List.replicate 32 7] 0 0 9)
      ⟨1⟩ = 2 := by
  decide
